import Mathlib

/-!
Verification development for the `cmsmgmt`/`cmsum` repository (Go).

The repository inspects a database backing a CMS installation (WordPress or
Joomla), extracts connection settings from configuration files, resolves
table-name prefixes from a live table listing, parses version files, selects a
version-appropriate password hashing scheme, and lists/edits users.

This file gives a shallow embedding of the pure cores of those functions.
External collaborators (the SQL driver, the filesystem, `crypto/md5`, `bcrypt`,
`net.SplitHostPort`, the random salt source) are passed in as explicit
parameters or modelled as already-performed reads (`Option`/`Except` inputs):
a file read becomes an `Option` of the extracted regex captures, a query
becomes a pure function of an explicit database state.  Everything that the
Go code computes itself is translated directly from the source.
-/

namespace Cmsum

/-! ### Models of the Go standard-library calls used by the repository -/

/-- `strings.Contains s sub`: `sub` occurs as a contiguous substring of `s`. -/
def goContains (s sub : String) : Bool :=
  decide (sub.data <:+: s.data)

/-- `strings.HasSuffix s suff`. -/
def goHasSuffix (s suff : String) : Bool :=
  decide (suff.data <:+ s.data)

/-- `strings.TrimSuffix s suff`: drop the suffix when present, else return `s`
unchanged. -/
def goTrimSuffix (s suff : String) : String :=
  if goHasSuffix s suff then ⟨s.data.take (s.data.length - suff.data.length)⟩ else s

/-- `strings.ToLower` restricted to the ASCII range, which is all the
repository ever feeds it (driver-type tokens and capability blobs). -/
def goToLower (s : String) : String :=
  ⟨s.data.map Char.toLower⟩

/-- Accumulator loop behind `goFieldsFunc`: `cur` holds the current run of
non-separator characters in reverse order. -/
def fieldsFuncAux (p : Char → Bool) (cs : List Char) (cur : List Char) : List String :=
  match cs with
  | [] => if cur.isEmpty then [] else [String.mk cur.reverse]
  | c :: rest =>
    if p c then
      if cur.isEmpty then fieldsFuncAux p rest []
      else String.mk cur.reverse :: fieldsFuncAux p rest []
    else fieldsFuncAux p rest (c :: cur)

/-- `strings.FieldsFunc s p`: the maximal runs of characters not satisfying
`p`; empty runs are dropped. -/
def goFieldsFunc (s : String) (p : Char → Bool) : List String :=
  fieldsFuncAux p s.data []

/-- ASCII white space, the subset of `unicode.IsSpace` the repository's
inputs can contain. -/
def goIsSpace (c : Char) : Bool :=
  c = ' ' || c = '\t' || c = '\n' || c = '\r'

/-- `strings.TrimSpace`: drop white space from both ends. -/
def goTrimSpace (s : String) : String :=
  ⟨((s.data.dropWhile goIsSpace).reverse.dropWhile goIsSpace).reverse⟩

/-- Accumulator loop behind `goSplitComma`. -/
def splitCommaAux (cs : List Char) (cur : List Char) : List String :=
  match cs with
  | [] => [String.mk cur.reverse]
  | c :: rest =>
    if c = ',' then String.mk cur.reverse :: splitCommaAux rest []
    else splitCommaAux rest (c :: cur)

/-- `strings.Split s ","`: split on every comma, keeping empty pieces. -/
def goSplitComma (s : String) : List String :=
  splitCommaAux s.data []

/-- `strconv.Atoi`: optional sign followed by at least one decimal digit.
The 64-bit range error of the Go function is not modelled (the repository
only parses small version components and port numbers). -/
def goAtoi (s : String) : Except String Int :=
  let withSign : Int × List Char :=
    match s.data with
    | '+' :: rest => (1, rest)
    | '-' :: rest => (-1, rest)
    | cs => (1, cs)
  let ds := withSign.2
  if ds ≠ [] ∧ ds.all (fun c => c.isDigit) then
    .ok (withSign.1 * (ds.foldl (fun n c => n * 10 + (c.toNat - 48)) 0 : Nat))
  else
    .error "invalid syntax"

/-- One lowercase hexadecimal digit, for nibble values `0..15`. -/
def goHexDigit (n : Nat) : Char :=
  if n < 10 then Char.ofNat (48 + n) else Char.ofNat (87 + n)

/-- `hex.EncodeToString` / `fmt.Sprintf "%x"` on a byte slice: two lowercase
hex digits per byte. -/
def goHexEncode (bs : List Nat) : String :=
  ⟨(bs.map fun b => [goHexDigit (b % 256 / 16), goHexDigit (b % 16)]).flatten⟩

/-- Insert a string into an already lexicographically sorted list. -/
def insertSorted (x : String) : List String → List String
  | [] => [x]
  | y :: ys => if ¬ y < x then x :: y :: ys else y :: insertSorted x ys

/-- `sort.Strings`: sort a string list lexicographically (insertion sort;
lexicographic order on strings is total, so this agrees with any sorting
algorithm the Go library picks). -/
def sortStrings : List String → List String
  | [] => []
  | x :: xs => insertSorted x (sortStrings xs)

end Cmsum

namespace Cmsum.Database

/-- `database.DBConfig` (the Go field `Type` is called `typ` here because
`Type` is reserved in Lean). -/
structure DBConfig where
  typ : String
  host : String
  port : Int
  user : String
  password : String
  dbName : String
deriving DecidableEq, Repr

/-- The per-prefix companion-table presence flags accumulated by
`database.IdentifyPrefixes` while scanning the table listing. -/
structure PrefixFlags where
  users : Bool := false
  posts : Bool := false
  userMap : Bool := false
  userGroups : Bool := false
deriving DecidableEq, Repr

/-- Update the flags stored under key `p` in the scan map, inserting a fresh
record when the prefix has not been seen yet (the Go code's
`seen[p]`-lookup-or-allocate). -/
def setFlag (seen : List (String × PrefixFlags)) (p : String)
    (upd : PrefixFlags → PrefixFlags) : List (String × PrefixFlags) :=
  match seen with
  | [] => [(p, upd {})]
  | (q, f) :: rest =>
    if q = p then (q, upd f) :: rest else (q, f) :: setFlag rest p upd

/-- One iteration of the table-listing scan loop of
`database.IdentifyPrefixes`: the four suffix rules are tested in the order of
the Go `switch`, and the first matching rule claims the table. -/
def scanTable (seen : List (String × PrefixFlags)) (tbl : String) :
    List (String × PrefixFlags) :=
  if goHasSuffix tbl "_users" then
    setFlag seen (goTrimSuffix tbl "_users") (fun f => { f with users := true })
  else if goHasSuffix tbl "_posts" then
    setFlag seen (goTrimSuffix tbl "_posts") (fun f => { f with posts := true })
  else if goHasSuffix tbl "_user_usergroup_map" then
    setFlag seen (goTrimSuffix tbl "_user_usergroup_map") (fun f => { f with userMap := true })
  else if goHasSuffix tbl "_usergroups" then
    setFlag seen (goTrimSuffix tbl "_usergroups") (fun f => { f with userGroups := true })
  else seen

/-- The acceptance condition of `database.IdentifyPrefixes` on a candidate's
flags, written exactly as the Go expression
`f.posts || (f.userMap && f.userGroups) || (f.userMap || f.userGroups && f.posts)`
parses under Go precedence (`&&` binds tighter than `||`, as in Lean). -/
def acceptFlags (f : PrefixFlags) : Bool :=
  f.posts || (f.userMap && f.userGroups) || (f.userMap || f.userGroups && f.posts)

/-- Pure core of `database.IdentifyPrefixes`: given the table listing returned
by the driver, accumulate per-prefix flags, keep only candidates that have the
`users` flag and pass `acceptFlags`, and return the prefixes sorted.  (The Go
map iteration order is irrelevant: each table updates one key and the result
is sorted before being returned.) -/
def IdentifyPrefixes (tables : List String) : List String :=
  let seen := tables.foldl scanTable []
  let ps := (seen.filter fun pf => pf.2.users && acceptFlags pf.2).map Prod.fst
  sortStrings ps

end Cmsum.Database

namespace Cmsum.Joomla

open Cmsum.Database

/-- The regex captures that `joomla.ExtractDBConfig` (the newest revision, in
the `joomla` package) can pull out of `configuration.php`.  A field is `none`
when its pattern (`public $key = '([^']+)';`) does not match the file text;
since the capture class is `[^']+`, a successful capture is never empty. -/
structure JoomlaConfigText where
  dbtype : Option String := none
  db : Option String := none
  user : Option String := none
  password : Option String := none
  host : Option String := none
  dbpfx : Option String := none
deriving DecidableEq, Repr

/-- Pure core of `joomla.ExtractDBConfig`.  `file` is `none` when
`os.ReadFile` failed, otherwise the regex captures.  `splitHostPort` stands
for `net.SplitHostPort`, returning `none` when that call errors.  The Go map
iteration order over the six patterns does not matter because each key writes
a different descriptor field; the keys are applied here in a fixed order. -/
def ExtractDBConfig (splitHostPort : String → Option (String × String))
    (file : Option JoomlaConfigText) : Except String (DBConfig × String) :=
  match file with
  | none => .error "read error"
  | some t =>
    let cfg0 : DBConfig :=
      { typ := "mysql", host := "", port := 3306, user := "", password := "", dbName := "" }
    let cfg1 :=
      match t.dbtype with
      | some v =>
        let ty := goToLower v
        { cfg0 with typ := if ty = "mysqli" then "mysql" else ty }
      | none => cfg0
    let cfg2 := match t.db with | some v => { cfg1 with dbName := v } | none => cfg1
    let cfg3 := match t.user with | some v => { cfg2 with user := v } | none => cfg2
    let cfg4 := match t.password with | some v => { cfg3 with password := v } | none => cfg3
    let cfg5 :=
      match t.host with
      | some hp =>
        match splitHostPort hp with
        | some (h, p) =>
          match goAtoi p with
          | .ok pn => { cfg4 with host := h, port := pn }
          | .error _ => { cfg4 with host := h }
        | none => { cfg4 with host := hp }
      | none => cfg4
    let pfx := match t.dbpfx with | some v => goTrimSuffix v "_" | none => ""
    .ok (cfg5, pfx)

/-- Regex captures of the old property-style version file
`libraries/cms/version/version.php` (`public $RELEASE = '...';` etc.). -/
structure OldVersionFile where
  release : Option String := none
  devLevel : Option String := none
  devStatus : Option String := none
  relDate : Option String := none
deriving DecidableEq, Repr

/-- Regex captures of the PSR-4 constant-style version file
`libraries/src/Version.php`: the three string constants of the Joomla 3.x
scheme (`RELEASE`, `DEV_LEVEL`, `DEV_STATUS`/`RELTYPE`), the numeric
constants of the Joomla 4.x scheme (`MAJOR_VERSION`, `MINOR_VERSION`,
`PATCH_VERSION`), `EXTRA_VERSION`, and the optional `RELDATE`. -/
structure NewVersionFile where
  release : Option String := none
  devLevel : Option String := none
  devStatus : Option String := none
  major : Option String := none
  minor : Option String := none
  patch : Option String := none
  extra : Option String := none
  relDate : Option String := none
deriving DecidableEq, Repr

/-- The Go helper `get`/`getC`: a failed regex match yields the empty string. -/
def getField (f : Option String) : String :=
  f.getD ""

/-- Pure core of `joomla.GetVersion`.  `oldFile` is the read of the old
property-style file (`none` when unreadable), `newFile` the read of the
constant-style file.  The old file, when readable, is committed to fully:
the new file is not consulted, and a missing `RELEASE` there is an error. -/
def GetVersion (oldFile : Option OldVersionFile) (newFile : Option NewVersionFile) :
    Except String (String × String) :=
  match oldFile with
  | some o =>
    let rel := getField o.release
    if rel = "" then .error "no RELEASE found in old version file"
    else
      let v1 := rel
      let v2 := if getField o.devLevel ≠ "" then v1 ++ "." ++ getField o.devLevel else v1
      let v3 :=
        if getField o.devStatus ≠ "" then v2 ++ " (" ++ getField o.devStatus ++ ")" else v2
      .ok (v3, getField o.relDate)
  | none =>
    match newFile with
    | none => .error "could not find either version file"
    | some n =>
      let rel := getField n.release
      if rel ≠ "" then
        let v1 := rel
        let v2 := if getField n.devLevel ≠ "" then v1 ++ "." ++ getField n.devLevel else v1
        let v3 :=
          if getField n.devStatus ≠ "" then v2 ++ " (" ++ getField n.devStatus ++ ")" else v2
        .ok (v3, getField n.relDate)
      else
        let maj := getField n.major
        let mi := getField n.minor
        if maj = "" ∨ mi = "" then .error "could not parse Joomla constants"
        else
          let v1 := maj ++ "." ++ mi
          let v2 :=
            if getField n.patch ≠ "" ∧ getField n.patch ≠ "0" then
              v1 ++ "." ++ getField n.patch
            else v1
          let v3 := if getField n.extra ≠ "" then v2 ++ "-" ++ getField n.extra else v2
          .ok (v3, getField n.relDate)

/-- `joomla.parseMajorVersion`: split on dots and spaces, parse the first
field as an integer. -/
def parseMajorVersion (v : String) : Except String Int :=
  let f := goFieldsFunc v (fun r => r = '.' || r = ' ')
  match f with
  | [] => .error ("invalid version format: " ++ v)
  | x :: _ => goAtoi x

/-- `bcrypt.DefaultCost`. -/
def bcryptDefaultCost : Nat := 10

/-- Pure core of `joomla.joomlaHashAuto`.  `md5sum` stands for `md5.Sum`
(returning the 16 digest bytes), `bcryptGen` for
`bcrypt.GenerateFromPassword` at a given cost, and `saltBytes` for the 16
bytes drawn from `rand.Read` (which cannot fail).  The two version files are
the inputs of `GetVersion` as above. -/
def joomlaHashAuto (md5sum : String → List Nat) (bcryptGen : String → Nat → String)
    (saltBytes : List Nat) (oldFile : Option OldVersionFile)
    (newFile : Option NewVersionFile) (password : String) : Except String String :=
  let major : Except String Int :=
    match GetVersion oldFile newFile with
    | .error _ => .ok 2   -- could not read a version file: assume Joomla 1.5/2.5
    | .ok (ver, _) =>
      match parseMajorVersion ver with
      | .error e => .error ("parse major version: " ++ e)
      | .ok m => .ok m
  match major with
  | .error e => .error e
  | .ok m =>
    if m < 3 then
      let salt := goHexEncode saltBytes
      .ok (goHexEncode (md5sum (password ++ salt)) ++ ":" ++ salt)
    else
      .ok (bcryptGen password bcryptDefaultCost)

/-- Pure core of `joomla.ProcessJoomla`.  The three effectful collaborators
(config extraction, `database.Connect`, prefix identification) are passed as
their results.  As in the source, the locally adjusted prefix list is
computed but not part of the return value: the function returns the open
connection (elided here), the config, and the hinted default prefix. -/
def ProcessJoomla (extractRes : Except String (DBConfig × String))
    (connectRes : Except String Unit)
    (identifyRes : Except String (List String)) : Except String (DBConfig × String) :=
  match extractRes with
  | .error e => .error ("failed to extract Joomla DB config: " ++ e)
  | .ok (cfg, defaultPfx) =>
    match connectRes with
    | .error e => .error ("failed to connect to database: " ++ e)
    | .ok _ =>
      match identifyRes with
      | .error e => .error ("failed to identify Joomla prefixes: " ++ e)
      | .ok ps =>
        let _adjusted := if ps.isEmpty ∧ defaultPfx ≠ "" then [defaultPfx] else ps
        .ok (cfg, defaultPfx)

/-- `joomla.UserDetail`. -/
structure UserDetail where
  id : Int
  username : String
  name : String
  email : String
  roles : List String
deriving DecidableEq, Repr

/-- One row of the `<prefix>_users` table, restricted to the columns
`EditUser` touches. -/
structure JUserRow where
  id : Int
  name : String
  email : String
  password : String
deriving DecidableEq, Repr

/-- The slice of the database state that the `EditUser` transaction reads and
writes: the users table, the `user_usergroup_map` table (pairs
`(user_id, group_id)`), and the `usergroups` table (pairs `(id, title)`). -/
structure JoomlaDB where
  users : List JUserRow
  userGroupMap : List (Int × Int)
  usergroups : List (Int × String)
deriving DecidableEq, Repr

/-- ``UPDATE `P_users` SET password = ? WHERE id = ?`` inside the
transaction; returns the new state and the affected-row count (the number of
matched rows; the MySQL changed-rows vs matched-rows distinction is not
modelled). -/
def execUpdatePassword (db : JoomlaDB) (uid : Int) (hashed : String) : JoomlaDB × Nat :=
  ({ db with users := db.users.map fun r => if r.id = uid then { r with password := hashed } else r },
   (db.users.filter fun r => r.id = uid).length)

/-- ``DELETE FROM `P_user_usergroup_map` WHERE user_id = ?``; returns the new
state and the affected-row count (which the Go code discards). -/
def execClearRoles (db : JoomlaDB) (uid : Int) : JoomlaDB × Nat :=
  ({ db with userGroupMap := db.userGroupMap.filter fun m => m.1 ≠ uid },
   (db.userGroupMap.filter fun m => m.1 = uid).length)

/-- ``SELECT id FROM `P_usergroups` WHERE title = ?`` via `QueryRow`: the
first matching row, or `none` for `sql.ErrNoRows`. -/
def queryGroupId (db : JoomlaDB) (title : String) : Option Int :=
  (db.usergroups.find? fun g => g.2 = title).map Prod.fst

/-- ``INSERT INTO `P_user_usergroup_map` (user_id, group_id) VALUES (?,?)``. -/
def execInsertRole (db : JoomlaDB) (uid gid : Int) : JoomlaDB × Nat :=
  ({ db with userGroupMap := db.userGroupMap ++ [(uid, gid)] }, 1)

/-- ``UPDATE `P_users` SET name = ?, email = ? WHERE id = ?``. -/
def execUpdateNameEmail (db : JoomlaDB) (uid : Int) (name email : String) : JoomlaDB × Nat :=
  ({ db with users := db.users.map fun r =>
      if r.id = uid then { r with name := name, email := email } else r },
   (db.users.filter fun r => r.id = uid).length)

/-- Step 4 of `joomla.EditUser` (password update): skipped when the collected
password input is empty; a hashing failure aborts; the update's affected-row
count is checked against exactly 1.  `hashResult` is the outcome of the
`joomlaHashAuto` call. -/
def editStepPassword (user : UserDetail) (pass : String)
    (hashResult : Except String String) (db : JoomlaDB) : Except String JoomlaDB :=
  if pass ≠ "" then
    match hashResult with
    | .error e => .error ("hash password: " ++ e)
    | .ok hashed =>
      let res := execUpdatePassword db user.id hashed
      if res.2 ≠ 1 then .error "password update affected rows" else .ok res.1
  else .ok db

/-- The `for _, r := range strings.Split(rolesCSV, ",")` loop body of step 5:
trim the title, look up its group id in the working state, and insert the
mapping row when the lookup succeeds — a failed lookup is skipped without
reporting anything. -/
def insertRolesLoop (uid : Int) (rs : List String) (db : JoomlaDB) : JoomlaDB :=
  match rs with
  | [] => db
  | r :: rest =>
    let title := goTrimSpace r
    let db2 :=
      match queryGroupId db title with
      | some gid => (execInsertRole db uid gid).1
      | none => db
    insertRolesLoop uid rest db2

/-- Step 5 of `joomla.EditUser` (roles update): delete all of the user's
mapping rows (no affected-row check), then run the insert loop over the
comma-separated titles.  In this pure model the delete and inserts
themselves cannot fail, so the step is total. -/
def editStepRoles (user : UserDetail) (rolesCSV : String) (db : JoomlaDB) : JoomlaDB :=
  insertRolesLoop user.id (goSplitComma rolesCSV) (execClearRoles db user.id).1

/-- Step 6 of `joomla.EditUser` (name/email update): run only when either
field differs from the freshly loaded record, with an exactly-one-row
affected check. -/
def editStepNameEmail (user : UserDetail) (name email : String) (db : JoomlaDB) :
    Except String JoomlaDB :=
  if name ≠ user.name ∨ email ≠ user.email then
    let res := execUpdateNameEmail db user.id name email
    if res.2 ≠ 1 then .error "name-email update affected rows" else .ok res.1
  else .ok db

/-- The transaction body of `joomla.EditUser` (steps 2–6): apply the
keep-on-empty defaulting to the collected inputs, then run the password,
roles, and name/email steps in order on the working state.  An error from
any step aborts the transaction. -/
def editUserTx (user : UserDetail) (nameIn emailIn passIn rolesIn : String)
    (hashResult : Except String String) (db : JoomlaDB) : Except String JoomlaDB :=
  let name := if goTrimSpace nameIn = "" then user.name else goTrimSpace nameIn
  let email := if goTrimSpace emailIn = "" then user.email else goTrimSpace emailIn
  let pass := goTrimSpace passIn
  let rolesCSV := goTrimSpace rolesIn
  match editStepPassword user pass hashResult db with
  | .error e => .error e
  | .ok db1 =>
    let db2 := if rolesCSV ≠ "" then editStepRoles user rolesCSV db1 else db1
    match editStepNameEmail user name email db2 with
    | .error e => .error e
    | .ok db3 => .ok db3

/-- `joomla.EditUser` around the transaction: on success the working state is
committed, on any error the transaction is rolled back and the database is
left at its pre-transaction state.  `user` is the record loaded by
`GetUserByUsername` in step 1 (which may be stale with respect to `db`). -/
def EditUser (user : UserDetail) (nameIn emailIn passIn rolesIn : String)
    (hashResult : Except String String) (db : JoomlaDB) : JoomlaDB × Option String :=
  match editUserTx user nameIn emailIn passIn rolesIn hashResult db with
  | .ok d => (d, none)
  | .error e => (db, some e)

end Cmsum.Joomla

namespace Cmsum.Wordpress

/-- `wordpress.identifyUserRole`: derive a role label from the serialized
capabilities blob by case-insensitive substring tests in a fixed order. -/
def identifyUserRole (capabilities : String) : String :=
  let lowerCaps := goToLower capabilities
  if goContains lowerCaps "administrator" then "Administrator"
  else if goContains lowerCaps "editor" then "Editor"
  else if goContains lowerCaps "author" then "Author"
  else if goContains lowerCaps "contributor" then "Contributor"
  else if goContains lowerCaps "subscriber" then "Subscriber"
  else "Unknown"

/-- The fixed ordered role table of the specification (needle, returned
label), in the order the specification lists them.  This definition follows
the spec's words; `identifyUserRole` above follows the source. -/
def specRoleTable : List (String × String) :=
  [("administrator", "Administrator"), ("editor", "Editor"), ("author", "Author"),
   ("contributor", "Contributor"), ("subscriber", "Subscriber")]

/-- Role derivation as the specification words it: first entry of the fixed
ordered table whose needle occurs in the capabilities blob, default
`"Unknown"`. -/
def specIdentifyUserRole (capabilities : String) : String :=
  ((specRoleTable.find? fun p => goContains (goToLower capabilities) p.1).map Prod.snd).getD
    "Unknown"

end Cmsum.Wordpress

namespace Cmsum

/-! ### Helper lemmas -/

theorem char_toNat_ofNat (n : Nat) (h : n.isValidChar) : (Char.ofNat n).toNat = n := by
  simp [Char.ofNat, h, Char.ofNatAux, Char.toNat, UInt32.toNat, BitVec.toNat_ofNatLt]

theorem char_toLower_idem (c : Char) : c.toLower.toLower = c.toLower := by
  simp only [Char.toLower]
  by_cases h : c.toNat ≥ 65 ∧ c.toNat ≤ 90
  · rw [if_pos h]
    have ht : (Char.ofNat (c.toNat + 32)).toNat = c.toNat + 32 :=
      char_toNat_ofNat _ (Or.inl (by omega))
    rw [if_neg (by rw [ht]; omega)]
  · rw [if_neg h, if_neg h]

theorem goToLower_idem (s : String) : goToLower (goToLower s) = goToLower s := by
  unfold goToLower
  congr 1
  rw [List.map_map]
  exact List.map_congr_left fun c _ => char_toLower_idem c

theorem goHasSuffix_iff {s suff : String} : goHasSuffix s suff = true ↔ suff.data <:+ s.data := by
  simp [goHasSuffix]

theorem goTrimSuffix_append {s suff : String} (h : goHasSuffix s suff = true) :
    goTrimSuffix s suff ++ suff = s := by
  obtain ⟨t, ht⟩ := goHasSuffix_iff.mp h
  unfold goTrimSuffix
  rw [if_pos h]
  have hd : s.data = t ++ suff.data := ht.symm
  have htake : s.data.take (s.data.length - suff.data.length) = t := by
    rw [hd, List.length_append, Nat.add_sub_cancel, List.take_left]
  rw [htake]
  apply String.ext
  rw [hd]
  rfl

theorem mem_insertSorted {a x : String} {l : List String} :
    a ∈ insertSorted x l ↔ a = x ∨ a ∈ l := by
  induction l with
  | nil => simp [insertSorted]
  | cons y ys ih =>
    unfold insertSorted
    by_cases h : ¬ y < x
    · rw [if_pos h]
      simp
    · rw [if_neg h]
      simp only [List.mem_cons, ih]
      tauto

theorem mem_sortStrings {a : String} {l : List String} :
    a ∈ sortStrings l ↔ a ∈ l := by
  induction l with
  | nil => simp [sortStrings]
  | cons x xs ih => simp [sortStrings, mem_insertSorted, ih]

end Cmsum

namespace Cmsum.Database

theorem mem_setFlag {seen : List (String × PrefixFlags)} {p q : String}
    {upd : PrefixFlags → PrefixFlags} {f : PrefixFlags}
    (h : (q, f) ∈ setFlag seen p upd) :
    (q, f) ∈ seen ∨ (q = p ∧ (f = upd {} ∨ ∃ f0, (p, f0) ∈ seen ∧ f = upd f0)) := by
  induction seen with
  | nil =>
    simp only [setFlag, List.mem_singleton] at h
    obtain ⟨h1, h2⟩ := Prod.mk.injEq .. ▸ h
    exact Or.inr ⟨h1, Or.inl h2⟩
  | cons hd rest ih =>
    obtain ⟨a, g⟩ := hd
    simp only [setFlag] at h
    by_cases hap : a = p
    · rw [if_pos hap] at h
      rcases List.mem_cons.mp h with h1 | h1
      · obtain ⟨h2, h3⟩ := Prod.mk.injEq .. ▸ h1
        exact Or.inr ⟨h2.trans hap, Or.inr ⟨g, by simp [hap], h3⟩⟩
      · exact Or.inl (List.mem_cons_of_mem _ h1)
    · rw [if_neg hap] at h
      rcases List.mem_cons.mp h with h1 | h1
      · exact Or.inl (List.mem_cons.mpr (Or.inl h1))
      · rcases ih h1 with h2 | ⟨h2, h3⟩
        · exact Or.inl (List.mem_cons_of_mem _ h2)
        · refine Or.inr ⟨h2, ?_⟩
          rcases h3 with h3 | ⟨f0, h4, h5⟩
          · exact Or.inl h3
          · exact Or.inr ⟨f0, List.mem_cons_of_mem _ h4, h5⟩

theorem users_of_scanTable {seen : List (String × PrefixFlags)} {tbl q : String}
    {f : PrefixFlags} (h : (q, f) ∈ scanTable seen tbl) (hu : f.users = true) :
    (∃ f0, (q, f0) ∈ seen ∧ f0.users = true) ∨ tbl = q ++ "_users" := by
  unfold scanTable at h
  by_cases h1 : goHasSuffix tbl "_users" = true
  · rw [if_pos h1] at h
    rcases mem_setFlag h with h2 | ⟨h2, _⟩
    · exact Or.inl ⟨f, h2, hu⟩
    · refine Or.inr ?_
      rw [h2]
      exact (goTrimSuffix_append h1).symm
  · rw [if_neg h1] at h
    by_cases h2 : goHasSuffix tbl "_posts" = true
    · rw [if_pos h2] at h
      rcases mem_setFlag h with h3 | ⟨hq, h4⟩
      · exact Or.inl ⟨f, h3, hu⟩
      · rcases h4 with h4 | ⟨f0, h5, h6⟩
        · rw [h4] at hu; simp at hu
        · exact Or.inl ⟨f0, by rw [hq]; exact h5, by rw [h6] at hu; exact hu⟩
    · rw [if_neg h2] at h
      by_cases h3 : goHasSuffix tbl "_user_usergroup_map" = true
      · rw [if_pos h3] at h
        rcases mem_setFlag h with h4 | ⟨hq, h5⟩
        · exact Or.inl ⟨f, h4, hu⟩
        · rcases h5 with h5 | ⟨f0, h6, h7⟩
          · rw [h5] at hu; simp at hu
          · exact Or.inl ⟨f0, by rw [hq]; exact h6, by rw [h7] at hu; exact hu⟩
      · rw [if_neg h3] at h
        by_cases h4 : goHasSuffix tbl "_usergroups" = true
        · rw [if_pos h4] at h
          rcases mem_setFlag h with h5 | ⟨hq, h6⟩
          · exact Or.inl ⟨f, h5, hu⟩
          · rcases h6 with h6 | ⟨f0, h7, h8⟩
            · rw [h6] at hu; simp at hu
            · exact Or.inl ⟨f0, by rw [hq]; exact h7, by rw [h8] at hu; exact hu⟩
        · rw [if_neg h4] at h
          exact Or.inl ⟨f, h, hu⟩

theorem users_of_foldl_scanTable {ts : List String} :
    ∀ {seen0 : List (String × PrefixFlags)} {q : String} {f : PrefixFlags},
    (q, f) ∈ ts.foldl scanTable seen0 → f.users = true →
    (∃ f0, (q, f0) ∈ seen0 ∧ f0.users = true) ∨ (q ++ "_users") ∈ ts := by
  induction ts with
  | nil => intro seen0 q f h hu; exact Or.inl ⟨f, h, hu⟩
  | cons t ts ih =>
    intro seen0 q f h hu
    rw [List.foldl_cons] at h
    rcases ih h hu with h1 | h1
    · obtain ⟨f0, h2, h3⟩ := h1
      rcases users_of_scanTable h2 h3 with h4 | h4
      · exact Or.inl h4
      · exact Or.inr (by rw [← h4]; exact List.mem_cons_self t ts)
    · exact Or.inr (List.mem_cons_of_mem t h1)

end Cmsum.Database

namespace Cmsum

/-- C2: the claim says a prefix whose flags include `users` plus at least one
of `userMap`/`userGroups` is accepted by `database.IdentifyPrefixes`, and in
particular a listing with exactly `P_users` and `P_usergroups` yields `P`.
The code's acceptance expression, under Go operator precedence, reduces to
`posts || userMap`, so the users-plus-usergroups-only listing is rejected:
evaluating the embedded code on that failing input yields the empty prefix
list, and the flag combination `users ∧ userGroups` alone fails the filter,
contradicting the claim (and the code's own comment
`Joomla – users + (userMap or userGroups)`). -/
theorem c2_users_usergroups_only_rejected :
    Database.IdentifyPrefixes ["ab_users", "ab_usergroups"] = [] ∧
    (Database.acceptFlags { users := true, userGroups := true } = false ∧
      Database.acceptFlags { users := true, userMap := true } = true) := by
  decide

/-- C5: `ProcessJoomla` returns the prefix hinted by `configuration.php` as
the usable default even when the live listing's resolved prefix set does not
contain it (in particular when that set is non-empty): the returned default
prefix is the hint, for every resolved set. -/
theorem c5_hinted_pfx_retained (cfg : Database.DBConfig) (hint : String)
    (ps : List String) (_h : hint ∉ ps) :
    Joomla.ProcessJoomla (.ok (cfg, hint)) (.ok ()) (.ok ps) = .ok (cfg, hint) := by
  rfl

/-- Witness for C5 at a concrete configuration, hint `jos`, and a non-empty
resolved set that does not contain the hint. -/
theorem c5_witness :
    "jos" ∉ ["wp", "rq5bl"] ∧
    Joomla.ProcessJoomla
      (.ok (⟨"mysql", "localhost", 3306, "u", "p", "db"⟩, "jos"))
      (.ok ()) (.ok ["wp", "rq5bl"]) =
      .ok (⟨"mysql", "localhost", 3306, "u", "p", "db"⟩, "jos") :=
  ⟨by decide, c5_hinted_pfx_retained _ _ _ (by decide)⟩

/-- C9: `identifyUserRole` equals the specification's description — test the
fixed ordered list administrator, editor, author, contributor, subscriber as
substrings of the (lowercased) capabilities blob, return the label of the
first match, and `Unknown` when none match. -/
theorem c9_identifyUserRole_first_match (caps : String) :
    Wordpress.identifyUserRole caps = Wordpress.specIdentifyUserRole caps := by
  unfold Wordpress.identifyUserRole Wordpress.specIdentifyUserRole Wordpress.specRoleTable
  cases h1 : goContains (goToLower caps) "administrator" <;>
    cases h2 : goContains (goToLower caps) "editor" <;>
      cases h3 : goContains (goToLower caps) "author" <;>
        cases h4 : goContains (goToLower caps) "contributor" <;>
          cases h5 : goContains (goToLower caps) "subscriber" <;>
            simp [List.find?, h1, h2, h3, h4, h5]

/-- C10: `identifyUserRole` is total and deterministic as a Lean function,
lowercases its input before matching, and therefore gives the same role for
inputs that agree after lowercasing; in particular
`identifyUserRole (toLower s) = identifyUserRole s` for every `s`. -/
theorem c10_identifyUserRole_case_insensitive :
    (∀ s : String, Wordpress.identifyUserRole (goToLower s) = Wordpress.identifyUserRole s) ∧
    (∀ s t : String, goToLower s = goToLower t →
      Wordpress.identifyUserRole s = Wordpress.identifyUserRole t) := by
  have congr_lower : ∀ s t : String, goToLower s = goToLower t →
      Wordpress.identifyUserRole s = Wordpress.identifyUserRole t := by
    intro s t h
    unfold Wordpress.identifyUserRole
    rw [h]
  exact ⟨fun s => congr_lower _ _ (goToLower_idem s), congr_lower⟩

/-- Witness for C10 on a concrete pair differing only in letter case. -/
theorem c10_witness :
    goToLower "ADMINistrator" = goToLower "administrator" ∧
    Wordpress.identifyUserRole "ADMINistrator" = Wordpress.identifyUserRole "administrator" :=
  ⟨by decide, c10_identifyUserRole_case_insensitive.2 _ _ (by decide)⟩

end Cmsum

namespace Cmsum

/-- C4: every prefix returned by `database.IdentifyPrefixes` has a
corresponding `<prefix>_users` table in the scanned listing ("users" is the
anchor table); equivalently, a listing containing companion tables for `P`
but no `P_users` table yields no installation for prefix `P`. -/
theorem c4_users_anchor :
    (∀ (tables : List String) (p : String),
        p ∈ Database.IdentifyPrefixes tables → (p ++ "_users") ∈ tables) ∧
    (∀ (tables : List String) (p : String),
        (p ++ "_users") ∉ tables → p ∉ Database.IdentifyPrefixes tables) := by
  have main : ∀ (tables : List String) (p : String),
      p ∈ Database.IdentifyPrefixes tables → (p ++ "_users") ∈ tables := by
    intro tables p hp
    simp only [Database.IdentifyPrefixes] at hp
    rw [mem_sortStrings] at hp
    obtain ⟨pf, hmem, hfst⟩ := List.mem_map.mp hp
    obtain ⟨hseen, hflag⟩ := List.mem_filter.mp hmem
    obtain ⟨q, f⟩ := pf
    have hu : f.users = true := by
      simp only [Bool.and_eq_true] at hflag
      exact hflag.1
    rcases Database.users_of_foldl_scanTable hseen hu with ⟨f0, h0, _⟩ | h1
    · exact absurd h0 (List.not_mem_nil _)
    · rw [← hfst]
      exact h1
  exact ⟨main, fun tables p h hmem => h (main tables p hmem)⟩

/-- Witness for C4: a listing where the prefix is accepted indeed contains
its `_users` table, and a map-only listing yields no installation for its
prefix. -/
theorem c4_witness :
    ("ab" ∈ Database.IdentifyPrefixes ["ab_users", "ab_posts"] ∧
      ("ab" ++ "_users") ∈ ["ab_users", "ab_posts"]) ∧
    (("cd" ++ "_users") ∉ ["cd_user_usergroup_map"] ∧
      "cd" ∉ Database.IdentifyPrefixes ["cd_user_usergroup_map"]) :=
  ⟨⟨by decide, c4_users_anchor.1 ["ab_users", "ab_posts"] "ab" (by decide)⟩,
   ⟨by decide, c4_users_anchor.2 ["cd_user_usergroup_map"] "cd" (by decide)⟩⟩

end Cmsum

namespace Cmsum

/-- C1: `joomlaHashAuto` selects the hashing scheme solely by comparing the
resolved major version with the fixed threshold 3: an unresolvable version
(any `GetVersion` failure, in particular no readable version file) falls back
to the legacy scheme instead of failing, a major version below 3 produces
`hex(md5(password ++ salt)) ++ ":" ++ salt` for the freshly generated salt,
and a major version of 3 or above produces a bcrypt hash at the default
cost. -/
theorem c1_joomlaHashAuto_threshold
    (md5sum : String → List Nat) (bcryptGen : String → Nat → String)
    (saltBytes : List Nat) (o : Option Joomla.OldVersionFile)
    (n : Option Joomla.NewVersionFile) (pw : String) :
    (∀ e, Joomla.GetVersion o n = .error e →
        Joomla.joomlaHashAuto md5sum bcryptGen saltBytes o n pw =
          .ok (goHexEncode (md5sum (pw ++ goHexEncode saltBytes)) ++ ":" ++
               goHexEncode saltBytes)) ∧
    (∀ v d m, Joomla.GetVersion o n = .ok (v, d) → Joomla.parseMajorVersion v = .ok m →
        (m < 3 →
          Joomla.joomlaHashAuto md5sum bcryptGen saltBytes o n pw =
            .ok (goHexEncode (md5sum (pw ++ goHexEncode saltBytes)) ++ ":" ++
                 goHexEncode saltBytes)) ∧
        (3 ≤ m →
          Joomla.joomlaHashAuto md5sum bcryptGen saltBytes o n pw =
            .ok (bcryptGen pw Joomla.bcryptDefaultCost))) := by
  constructor
  · intro e he
    simp [Joomla.joomlaHashAuto, he]
  · intro v d m hv hm
    constructor
    · intro hlt
      simp [Joomla.joomlaHashAuto, hv, hm, hlt]
    · intro hge
      simp [Joomla.joomlaHashAuto, hv, hm, Int.not_lt.mpr hge]

/-- Witness for C1: the below-threshold leg at resolved version `2.5`, the
at-or-above leg at `4.4`, and the no-readable-file fallback leg. -/
theorem c1_witness :
    (Joomla.joomlaHashAuto (fun _ => [1, 2]) (fun _ _ => "bch") [171]
        (some { release := some "2.5" }) none "pw" =
      .ok (goHexEncode ((fun _ => [1, 2]) ("pw" ++ goHexEncode [171])) ++ ":" ++
           goHexEncode [171])) ∧
    (Joomla.joomlaHashAuto (fun _ => [1, 2]) (fun _ _ => "bch") [171]
        (some { release := some "4.4" }) none "pw" =
      .ok ((fun (_ : String) (_ : Nat) => "bch") "pw" Joomla.bcryptDefaultCost)) ∧
    (Joomla.joomlaHashAuto (fun _ => [1, 2]) (fun _ _ => "bch") [171] none none "pw" =
      .ok (goHexEncode ((fun _ => [1, 2]) ("pw" ++ goHexEncode [171])) ++ ":" ++
           goHexEncode [171])) :=
  ⟨((c1_joomlaHashAuto_threshold (fun _ => [1, 2]) (fun _ _ => "bch") [171]
        (some { release := some "2.5" }) none "pw").2 "2.5" "" 2 rfl rfl).1 (by norm_num),
   ((c1_joomlaHashAuto_threshold (fun _ => [1, 2]) (fun _ _ => "bch") [171]
        (some { release := some "4.4" }) none "pw").2 "4.4" "" 4 rfl rfl).2 (by norm_num),
   (c1_joomlaHashAuto_threshold (fun _ => [1, 2]) (fun _ _ => "bch") [171]
        none none "pw").1 "could not find either version file" rfl⟩

/-- C7: `GetVersion` commits to the old property-style file whenever it is
readable — the result (including the no-`RELEASE` failure) is then
independent of the constant-style file — and inside the constant-style file
the four-field numeric scheme is consulted only when the `RELEASE` constant
is absent: when `RELEASE` is present, the result is independent of the
`MAJOR`/`MINOR`/`PATCH`/`EXTRA` captures, so partial information is never
merged. -/
theorem c7_GetVersion_fixed_priority :
    (∀ (o : Joomla.OldVersionFile) (n n' : Option Joomla.NewVersionFile),
        Joomla.GetVersion (some o) n = Joomla.GetVersion (some o) n') ∧
    (∀ (o : Joomla.OldVersionFile) (n : Option Joomla.NewVersionFile),
        o.release = none →
        Joomla.GetVersion (some o) n = .error "no RELEASE found in old version file") ∧
    (∀ (n : Joomla.NewVersionFile), Joomla.getField n.release ≠ "" →
        ∀ maj mi pa ex,
          Joomla.GetVersion none
              (some { n with major := maj, minor := mi, patch := pa, extra := ex }) =
            Joomla.GetVersion none (some n)) := by
  refine ⟨fun o n n' => rfl, ?_, ?_⟩
  · intro o n h
    simp [Joomla.GetVersion, Joomla.getField, h]
  · intro n h maj mi pa ex
    obtain ⟨r, dl, ds, mj, mi0, pa0, ex0, rd⟩ := n
    simp only [Joomla.GetVersion]
    rw [if_pos h, if_pos h]

/-- Witness for C7: the missing-`RELEASE` failure of a readable old file is
independent of a fully populated new file, and a new file with `RELEASE`
present ignores arbitrary numeric captures. -/
theorem c7_witness :
    ((⟨none, none, none, none⟩ : Joomla.OldVersionFile).release = none ∧
      Joomla.GetVersion (some ⟨none, none, none, none⟩)
          (some ⟨some "5.0", some "1", some "Stable", some "5", some "0", some "1",
                 some "rc", some "2023-10"⟩) =
        .error "no RELEASE found in old version file") ∧
    (Joomla.getField (⟨some "3.10", some "6", some "Stable", none, none, none, none,
        none⟩ : Joomla.NewVersionFile).release ≠ "" ∧
      Joomla.GetVersion none
          (some { (⟨some "3.10", some "6", some "Stable", none, none, none, none, none⟩ :
              Joomla.NewVersionFile) with
            major := some "9", minor := some "8", patch := some "7", extra := some "x" }) =
        Joomla.GetVersion none
          (some ⟨some "3.10", some "6", some "Stable", none, none, none, none, none⟩)) :=
  ⟨⟨rfl, c7_GetVersion_fixed_priority.2.1 ⟨none, none, none, none⟩ _ rfl⟩,
   ⟨by decide,
    c7_GetVersion_fixed_priority.2.2 _ (by decide) (some "9") (some "8") (some "7")
      (some "x")⟩⟩

end Cmsum

namespace Cmsum

/-- C8: `ExtractDBConfig` errors exactly when the configuration file cannot
be read; a readable text with zero recognized keys yields the family-default
descriptor (`mysql`, port 3306, empty strings, empty hinted prefix); and a
host capture that `net.SplitHostPort` splits into a host and a non-numeric
port yields the split host together with the default port 3306, not an
error. -/
theorem c8_ExtractDBConfig_defaults
    (sp : String → Option (String × String)) :
    (∀ (file : Option Joomla.JoomlaConfigText),
        (∃ e, Joomla.ExtractDBConfig sp file = .error e) ↔ file = none) ∧
    (Joomla.ExtractDBConfig sp (some {}) =
        .ok ({ typ := "mysql", host := "", port := 3306, user := "", password := "",
               dbName := "" }, "")) ∧
    (∀ (d1 d2 d3 d4 d6 : Option String) (hostStr hh pp : String),
        sp hostStr = some (hh, pp) → goAtoi pp = .error "invalid syntax" →
        ∃ cfg pfx,
          Joomla.ExtractDBConfig sp
              (some { dbtype := d1, db := d2, user := d3, password := d4,
                      host := some hostStr, dbpfx := d6 }) = .ok (cfg, pfx) ∧
            cfg.host = hh ∧ cfg.port = 3306) := by
  refine ⟨?_, rfl, ?_⟩
  · intro file
    constructor
    · rintro ⟨e, he⟩
      cases file with
      | none => rfl
      | some t => simp [Joomla.ExtractDBConfig] at he
    · rintro rfl
      exact ⟨"read error", rfl⟩
  · intro d1 d2 d3 d4 d6 hostStr hh pp h2 h3
    cases d1 <;> cases d2 <;> cases d3 <;> cases d4 <;> cases d6 <;>
      simp only [Joomla.ExtractDBConfig, h2, h3] <;>
        exact ⟨_, _, rfl, rfl, rfl⟩

/-- Witness for C8: a text whose only recognized capture is a host with the
non-numeric embedded port `x` produces the split host `h` and the default
port 3306. -/
theorem c8_witness :
    ∃ cfg pfx,
      Joomla.ExtractDBConfig (fun s => if s = "h:x" then some ("h", "x") else none)
          (some { dbtype := none, db := none, user := none, password := none,
                  host := some "h:x", dbpfx := none }) = .ok (cfg, pfx) ∧
        cfg.host = "h" ∧ cfg.port = 3306 :=
  (c8_ExtractDBConfig_defaults (fun s => if s = "h:x" then some ("h", "x") else none)).2.2
    none none none none none "h:x" "h" "x" rfl rfl

end Cmsum

namespace Cmsum

theorem insertRolesLoop_missing (uid : Int) (db : Joomla.JoomlaDB) :
    ∀ (rs : List String), (∀ r ∈ rs, Joomla.queryGroupId db (goTrimSpace r) = none) →
    Joomla.insertRolesLoop uid rs db = db := by
  intro rs
  induction rs with
  | nil => intro _; rfl
  | cons r rest ih =>
    intro h
    have h1 : Joomla.queryGroupId db (goTrimSpace r) = none :=
      h r (List.mem_cons_self r rest)
    simp only [Joomla.insertRolesLoop, h1]
    exact ih fun x hx => h x (List.mem_cons_of_mem r hx)

/-- C3 (as amended): any error inside the `EditUser` transaction rolls the
whole transaction back, leaving the database at its pre-transaction state;
the password update and the name/email update additionally check that
exactly one row was affected and roll back on mismatch.  (The role-mapping
delete and insert steps carry no affected-row check — see the
counterexample.) -/
theorem c3_rollback_and_row_guards :
    (∀ (user : Joomla.UserDetail) (nIn eIn pIn rIn : String)
        (hr : Except String String) (db : Joomla.JoomlaDB) (msg : String),
        (Joomla.EditUser user nIn eIn pIn rIn hr db).2 = some msg →
        (Joomla.EditUser user nIn eIn pIn rIn hr db).1 = db) ∧
    (∀ (user : Joomla.UserDetail) (pIn hstr : String) (db : Joomla.JoomlaDB),
        goTrimSpace pIn ≠ "" →
        (db.users.filter fun r => r.id = user.id).length ≠ 1 →
        Joomla.EditUser user "" "" pIn "" (.ok hstr) db =
          (db, some "password update affected rows")) ∧
    (∀ (user : Joomla.UserDetail) (nIn : String) (hr : Except String String)
        (db : Joomla.JoomlaDB),
        goTrimSpace nIn ≠ "" → goTrimSpace nIn ≠ user.name →
        (db.users.filter fun r => r.id = user.id).length ≠ 1 →
        Joomla.EditUser user nIn "" "" "" hr db =
          (db, some "name-email update affected rows")) := by
  refine ⟨?_, ?_, ?_⟩
  · intro user nIn eIn pIn rIn hr db msg hsnd
    unfold Joomla.EditUser at hsnd ⊢
    cases h : Joomla.editUserTx user nIn eIn pIn rIn hr db with
    | ok d => rw [h] at hsnd; simp at hsnd
    | error e => rfl
  · intro user pIn hstr db hp hcount
    have hre : goTrimSpace "" = "" := rfl
    simp [Joomla.EditUser, Joomla.editUserTx, Joomla.editStepPassword,
          Joomla.execUpdatePassword, hre, hp, hcount]
  · intro user nIn hr db hn hname hcount
    have hre : goTrimSpace "" = "" := rfl
    simp [Joomla.EditUser, Joomla.editUserTx, Joomla.editStepPassword,
          Joomla.editStepNameEmail, Joomla.execUpdateNameEmail, hre, hn, hname, hcount]

/-- Witness for C3's amended theorem: a stale user record (id 9 absent from
the database) makes the password update affect 0 rows, the transaction is
rolled back with an error, and the same run instantiates the
error-implies-unchanged part; a name-change run on the same stale record
trips the name/email guard. -/
theorem c3_witness :
    ((Joomla.EditUser ⟨9, "u", "N", "E", []⟩ "" "" "x" "" (.ok "H") ⟨[], [], []⟩).2 =
        some "password update affected rows" ∧
      (Joomla.EditUser ⟨9, "u", "N", "E", []⟩ "" "" "x" "" (.ok "H") ⟨[], [], []⟩).1 =
        ⟨[], [], []⟩) ∧
    (Joomla.EditUser ⟨9, "u", "N", "E", []⟩ "" "" "x" "" (.ok "H") ⟨[], [], []⟩ =
      (⟨[], [], []⟩, some "password update affected rows")) ∧
    (Joomla.EditUser ⟨9, "u", "N", "E", []⟩ "Z" "" "" "" (.ok "H") ⟨[], [], []⟩ =
      (⟨[], [], []⟩, some "name-email update affected rows")) :=
  ⟨⟨by decide,
    c3_rollback_and_row_guards.1 ⟨9, "u", "N", "E", []⟩ "" "" "x" "" (.ok "H") ⟨[], [], []⟩
      "password update affected rows" (by decide)⟩,
   c3_rollback_and_row_guards.2.1 ⟨9, "u", "N", "E", []⟩ "x" "H" ⟨[], [], []⟩
     (by decide) (by decide),
   c3_rollback_and_row_guards.2.2 ⟨9, "u", "N", "E", []⟩ "Z" (.ok "H") ⟨[], [], []⟩
     (by decide) (by decide) (by decide)⟩

/-- Counterexample for C3 as claimed: in this run the role-mapping delete —
a write step inside the transaction — affects 2 rows (not exactly one), yet
the transaction commits and the database changes, so not every write step is
row-count-checked and an off-by-count step does not roll back. -/
theorem c3_counterexample :
    (Joomla.execClearRoles
        ⟨[⟨7, "N", "E", "P"⟩], [(7, 1), (7, 2)], [(1, "A"), (2, "B")]⟩ 7).2 = 2 ∧
    Joomla.EditUser ⟨7, "u", "N", "E", ["A", "B"]⟩ "" "" "" "A" (.ok "")
        ⟨[⟨7, "N", "E", "P"⟩], [(7, 1), (7, 2)], [(1, "A"), (2, "B")]⟩ =
      (⟨[⟨7, "N", "E", "P"⟩], [(7, 1)], [(1, "A"), (2, "B")]⟩, none) ∧
    (⟨[⟨7, "N", "E", "P"⟩], [(7, 1)], [(1, "A"), (2, "B")]⟩ : Joomla.JoomlaDB) ≠
      ⟨[⟨7, "N", "E", "P"⟩], [(7, 1), (7, 2)], [(1, "A"), (2, "B")]⟩ := by
  decide

/-- C6 (as amended): a failing step inside the `EditUser` transaction — such
as a password-hashing failure — is reported to the caller and rolls the
transaction back; however, the usergroup-id lookup for a requested role
title is silently skipped when it fails: when every requested title is
unknown, the delete-all still applies, no role is inserted, and the
transaction commits successfully with no error. -/
theorem c6_lookup_miss_swallowed :
    (∀ (user : Joomla.UserDetail) (nIn eIn rIn pIn e : String) (db : Joomla.JoomlaDB),
        goTrimSpace pIn ≠ "" →
        Joomla.EditUser user nIn eIn pIn rIn (.error e) db =
          (db, some ("hash password: " ++ e))) ∧
    (∀ (user : Joomla.UserDetail) (rIn : String) (hr : Except String String)
        (db : Joomla.JoomlaDB),
        goTrimSpace rIn ≠ "" →
        (∀ r ∈ goSplitComma (goTrimSpace rIn),
            Joomla.queryGroupId db (goTrimSpace r) = none) →
        Joomla.EditUser user "" "" "" rIn hr db =
          ({ db with userGroupMap := db.userGroupMap.filter fun m => m.1 ≠ user.id },
           none)) := by
  constructor
  · intro user nIn eIn rIn pIn e db hp
    simp [Joomla.EditUser, Joomla.editUserTx, Joomla.editStepPassword, hp]
  · intro user rIn hr db hne hall
    have hre : goTrimSpace "" = "" := rfl
    have hloop : Joomla.editStepRoles user (goTrimSpace rIn) db =
        { db with userGroupMap := db.userGroupMap.filter fun m => m.1 ≠ user.id } :=
      insertRolesLoop_missing user.id _ (goSplitComma (goTrimSpace rIn)) hall
    simp [Joomla.EditUser, Joomla.editUserTx, Joomla.editStepPassword,
          Joomla.editStepNameEmail, hre, hne, hloop]

/-- Witness for C6's amended theorem: a hashing failure is reported and
rolled back, and a roles-only update whose single requested title is unknown
commits with the user's mapping rows deleted and nothing inserted. -/
theorem c6_witness :
    (Joomla.EditUser ⟨9, "u", "N", "E", []⟩ "" "" "x" "" (.error "boom") ⟨[], [], []⟩ =
      (⟨[], [], []⟩, some ("hash password: " ++ "boom"))) ∧
    (Joomla.EditUser ⟨5, "u", "N", "E", ["Registered"]⟩ "" "" "" "Bogus" (.ok "")
        ⟨[⟨5, "N", "E", "P"⟩], [(5, 1)], [(1, "Registered")]⟩ =
      ({ (⟨[⟨5, "N", "E", "P"⟩], [(5, 1)], [(1, "Registered")]⟩ : Joomla.JoomlaDB) with
          userGroupMap := [(5, 1)].filter fun m => m.1 ≠ (5 : Int) }, none)) :=
  ⟨c6_lookup_miss_swallowed.1 ⟨9, "u", "N", "E", []⟩ "" "" "" "x" "boom" ⟨[], [], []⟩
     (by decide),
   c6_lookup_miss_swallowed.2 ⟨5, "u", "N", "E", ["Registered"]⟩ "Bogus" (.ok "")
     ⟨[⟨5, "N", "E", "P"⟩], [(5, 1)], [(1, "Registered")]⟩ (by decide) (by decide)⟩

/-- Counterexample for C6 as claimed: the usergroup-id lookup for the
requested title `Bogus` fails (`sql.ErrNoRows`), yet `EditUser` commits
successfully — the role is silently omitted, the user's previous mapping
rows are deleted, and no error is reported. -/
theorem c6_counterexample :
    Joomla.queryGroupId ⟨[⟨5, "N", "E", "P"⟩], [(5, 1)], [(1, "Registered")]⟩ "Bogus" =
      none ∧
    Joomla.EditUser ⟨5, "u", "N", "E", ["Registered"]⟩ "" "" "" "Bogus" (.ok "")
        ⟨[⟨5, "N", "E", "P"⟩], [(5, 1)], [(1, "Registered")]⟩ =
      (⟨[⟨5, "N", "E", "P"⟩], [], [(1, "Registered")]⟩, none) := by
  decide

end Cmsum
